import Mathlib

/-!
Verification of the dynamic endpoint compiler/executor of
`backend/api/server.js` (node-file-upload-app).

The JavaScript functions are shallowly embedded as executable Lean
definitions over `List Char` / `String`.  Regex scans are translated into
explicit character scanners with the same leftmost-match, resume-after-match
discipline as the JavaScript `RegExp` methods they model: after a match the
scanner re-enters a skip state that consumes exactly the matched word
characters, which is equivalent to resuming at the match end and keeps all
definitions structurally recursive.  Database effects are modelled as
explicit event traces driven by a failure plan, and the external `date-fns`
parser is passed in as a function argument.
-/

namespace Server

/-- JavaScript `\w` character class: `[A-Za-z0-9_]`. -/
def isWordChar (c : Char) : Bool := c.isAlphanum || c = '_'

/-- A single quote character, kept out of string literals. -/
def squote : Char := Char.ofNat 39

/-- A single quote as a string. -/
def squoteS : String := String.mk [squote]

/-- Wrap a name in single quotes, as the server's error messages do. -/
def quoteName (s : String) : String := squoteS ++ s ++ squoteS

/-- Scanner worker for `m(\w+)` occurrences (the JS `matchAll` loop for
`:([\w_]+)` or `@([\w_]+)`).  `skipping` re-consumes the word characters of
the match just emitted, which is the same as resuming at the match end. -/
def scanCapturesGo (m : Char) : Bool → List Char → List String
  | _, [] => []
  | skipping, c :: rest =>
    if skipping && isWordChar c then scanCapturesGo m true rest
    else if c = m then
      let w := rest.takeWhile isWordChar
      if w.isEmpty then scanCapturesGo m false rest
      else w.asString :: scanCapturesGo m true rest
    else scanCapturesGo m false rest

/-- Leftmost scan for `m(\w+)`: captured names in match order. -/
def scanCaptures (m : Char) (s : List Char) : List String :=
  scanCapturesGo m false s

/-- Scanner worker for `\{(\w+)\}`: mode 0 is normal scanning, mode 2 skips
the word characters of a just-matched placeholder and then its `}`. -/
def scanBraceGo : Nat → List Char → List String
  | _, [] => []
  | mode, c :: rest =>
    if mode = 2 && isWordChar c then scanBraceGo 2 rest
    else if mode = 2 && c = '}' then scanBraceGo 0 rest
    else if c = '{' then
      let w := rest.takeWhile isWordChar
      if !w.isEmpty && ((rest.dropWhile isWordChar).head? = some '}') then
        w.asString :: scanBraceGo 2 rest
      else scanBraceGo 0 rest
    else scanBraceGo 0 rest

/-- Leftmost scan for `\{(\w+)\}` occurrences. -/
def scanBraceCaptures (s : List Char) : List String := scanBraceGo 0 s

/-- Scanner worker for full matches of `\$(\w+)` with the `g` flag. -/
def scanFullDollarGo : Bool → List Char → List String
  | _, [] => []
  | skipping, c :: rest =>
    if skipping && isWordChar c then scanFullDollarGo true rest
    else if c = '$' then
      let w := rest.takeWhile isWordChar
      if w.isEmpty then scanFullDollarGo false rest
      else ('$' :: w).asString :: scanFullDollarGo true rest
    else scanFullDollarGo false rest

/-- JavaScript `sql.match(/\$(\w+)/g)` returns the *full* match texts
(dollar sign included), not the capture groups. -/
def scanFullDollar (s : List Char) : List String := scanFullDollarGo false s

/-- Worker for first-seen-order de-duplication. -/
def firstSeenDedupGo (seen : List String) : List String → List String
  | [] => []
  | x :: xs => if x ∈ seen then firstSeenDedupGo seen xs else x :: firstSeenDedupGo (x :: seen) xs

/-- First-seen-order de-duplication, the semantics of `[...new Set(xs)]`. -/
def firstSeenDedup (l : List String) : List String := firstSeenDedupGo [] l

/-- Result of `extractParamDetails`. -/
structure ParamDetails where
  pathParams : List String
  queryParams : List String
  outputParams : List String
  deriving DecidableEq, Repr

/-- `extractParamDetails(sql)` from server.js.  Note the translation of
`sql.match(dollarParamRegex)?.[1]`: with a global regex, JS `match`
returns the array of full match strings, so `[1]` is the *second* full
match (or `undefined`), which the query-parameter filter then compares
against each bare name. -/
def extractParamDetails (sql : List Char) : ParamDetails :=
  let pathParams := firstSeenDedup (scanBraceCaptures sql)
  let dollarParam : Option String := (scanFullDollar sql).get? 1
  let queryParams0 :=
    (firstSeenDedup (scanCaptures ':' sql)).filter (fun p => !(dollarParam == some p))
  let outputParams0 := firstSeenDedup (scanCaptures '@' sql)
  { pathParams := pathParams
    queryParams := queryParams0.filter (fun p => !(pathParams.contains p))
    outputParams := outputParams0.filter
      (fun p => !(queryParams0.contains p) && !(pathParams.contains p)) }

/-- `extractDollarParam(sql)` from server.js: the first `\$(\w+)` capture
(this one uses a non-global regex, so `[1]` really is the capture group). -/
def extractDollarParam : List Char → Option String
  | [] => none
  | c :: rest =>
    if c = '$' then
      let w := rest.takeWhile isWordChar
      if w.isEmpty then extractDollarParam rest
      else some w.asString
    else extractDollarParam rest

/-- `name` is a literal prefix of `s`. -/
def matchesAt (name s : List Char) : Bool :=
  match name, s with
  | [], _ => true
  | _ :: _, [] => false
  | a :: name', b :: s' => a == b && matchesAt name' s'

/-- The `\b` word-boundary test after a word-character token: the boundary
holds exactly when the following character is absent or not a word
character. -/
def boundaryOk : List Char → Bool
  | [] => true
  | c :: _ => !isWordChar c

/-- Worker for the global regex replace of `m⟨name⟩\b` by `repl`
(`new RegExp('@' + key + '\\b', 'g')` and the `$name` rewrite in
server.js).  The `Nat` argument skips the characters of a match just
consumed; replacements are not rescanned, as in JS `String.replace`. -/
def replaceTokGo (m : Char) (name repl : List Char) : Nat → List Char → List Char
  | _ + 1, [] => []
  | k + 1, _ :: rest => replaceTokGo m name repl k rest
  | 0, [] => []
  | 0, c :: rest =>
    if c == m && matchesAt name rest && boundaryOk (rest.drop name.length) then
      repl ++ replaceTokGo m name repl name.length rest
    else c :: replaceTokGo m name repl 0 rest

/-- Replace every occurrence of `m⟨name⟩` followed by a word boundary with
`repl`, scanning left to right. -/
def replaceTok (m : Char) (name repl s : List Char) : List Char :=
  replaceTokGo m name repl 0 s

/-- The JavaScript values a procedure output bind can carry in this model:
strings, integers, or null. -/
inductive JsValue where
  | str (s : String)
  | num (n : Int)
  | nullV
  deriving DecidableEq, Repr

/-- The replacement text for one procedure output value, as computed by the
orchestrator: `typeof value === 'string'` values are wrapped in single
quotes, any other value is inlined via JS string coercion. -/
def renderOutValue : JsValue → String
  | .str s => squoteS ++ s ++ squoteS
  | .num n => toString n
  | .nullV => "null"

/-- Substitution of procedure output binds into the trailing query's text:
for each `[key, value]` of `outBinds` in insertion order, every `@key\b`
occurrence is replaced by the rendered value. -/
def substituteOutBinds (outs : List (String × JsValue)) (sql : List Char) : List Char :=
  outs.foldl (fun acc kv => replaceTok '@' kv.1.data (renderOutValue kv.2).data acc) sql

/-- JS `String.prototype.trim` on a character list. -/
def listTrim (s : List Char) : List Char :=
  ((s.dropWhile Char.isWhitespace).reverse.dropWhile Char.isWhitespace).reverse

/-- JS `String.prototype.trim`. -/
def jsTrim (s : String) : String := (listTrim s.data).asString

/-- JS `String.prototype.split` with a one-character separator. -/
def splitOnChar (sep : Char) : List Char → List (List Char)
  | [] => [[]]
  | c :: rest =>
    if c = sep then [] :: splitOnChar sep rest
    else
      match splitOnChar sep rest with
      | h :: t => (c :: h) :: t
      | [] => [[c]]

/-- Worker for the single-pass positional rewrite of
`/(\{(\w+)\}|:(\w+))/g` in `executeProcedure` (MySQL branch): a matched
placeholder whose name is a defined parameter becomes `?` and its name is
appended to the positional bind list; other text (and placeholders whose
parameter is undefined) is kept as-is.  Mode 1 skips the word characters of
a replaced `:name`; mode 2 skips those of a replaced `{name}` and then its
`}`. -/
def rewriteGo (defined : String → Bool) : Nat → List Char → List Char × List String
  | _, [] => ([], [])
  | mode, c :: rest =>
    if (mode == 1 || mode == 2) && isWordChar c then rewriteGo defined mode rest
    else if mode == 2 && c = '}' then rewriteGo defined 0 rest
    else if c = '{' then
      let w := rest.takeWhile isWordChar
      if !w.isEmpty && ((rest.dropWhile isWordChar).head? = some '}') && defined w.asString then
        let r := rewriteGo defined 2 rest
        ('?' :: r.1, w.asString :: r.2)
      else
        let r := rewriteGo defined 0 rest
        ('{' :: r.1, r.2)
    else if c = ':' then
      let w := rest.takeWhile isWordChar
      if !w.isEmpty && defined w.asString then
        let r := rewriteGo defined 1 rest
        ('?' :: r.1, w.asString :: r.2)
      else
        let r := rewriteGo defined 0 rest
        (':' :: r.1, r.2)
    else
      let r := rewriteGo defined 0 rest
      (c :: r.1, r.2)

/-- Positional-marker rewrite of a statement: the rewritten text and the
positional bind names in left-to-right order (the source collects match
positions, substitutes back-to-front to keep offsets stable, and
`unshift`s the values, which yields exactly this left-to-right result). -/
def rewritePositional (defined : String → Bool) (s : List Char) : List Char × List String :=
  rewriteGo defined 0 s

/-- One primitive database action attempted by the MySQL procedure
emulation.  `exec` carries the rewritten statement and the positional bind
names; `selectOut` records the follow-up `SELECT @name` attempt and whether
it succeeded (its failure is caught and only logged by the source). -/
inductive DbEvent where
  | begin
  | setNull (n : String)
  | exec (sql : String) (binds : List String)
  | selectOut (n : String) (ok : Bool)
  | commit
  | rollback
  deriving DecidableEq, Repr

/-- Failure plan for one MySQL procedure execution: which primitive
operations succeed. -/
structure MySqlPlan where
  beginOk : Bool
  setNullOk : String → Bool
  execOk : Bool
  selectOk : String → Bool
  commitOk : Bool

/-- The `SET @name = NULL` reset loop: stops at the first failing reset. -/
def runResets (plan : MySqlPlan) : List String → List DbEvent × Bool
  | [] => ([], true)
  | n :: rest =>
    if plan.setNullOk n then
      let r := runResets plan rest
      (.setNull n :: r.1, r.2)
    else ([.setNull n], false)

/-- The output-recovery loop `SELECT @name as value`: every attempt is
made; a failing select is caught and logged, never aborting the loop. -/
def runSelects (plan : MySqlPlan) (names : List String) : List DbEvent :=
  names.map (fun n => .selectOut n (plan.selectOk n))

/-- The body of the MySQL `try` block after `beginTransaction`: reset each
output variable, execute the rewritten statement, recover outputs (failures
swallowed), then commit.  Mirrors the `outputParams.length > 0` split of
the source. -/
def mysqlProcBody (names : List String) (sql : String) (binds : List String)
    (plan : MySqlPlan) : List DbEvent × Bool :=
  if names.length > 0 then
    if !(runResets plan names).2 then ((runResets plan names).1, false)
    else if !plan.execOk then ((runResets plan names).1 ++ [.exec sql binds], false)
    else if plan.commitOk then
      ((runResets plan names).1 ++ [.exec sql binds] ++ runSelects plan names ++ [.commit], true)
    else ((runResets plan names).1 ++ [.exec sql binds] ++ runSelects plan names, false)
  else
    if !plan.execOk then ([.exec sql binds], false)
    else if plan.commitOk then ([.exec sql binds, .commit], true) else ([.exec sql binds], false)

/-- `executeProcedure` (MySQL branch) as a trace semantics: output names
are scanned from the *original* body with `/@(\w+)/g` (no de-duplication),
the *execution* body is trimmed and rewritten to positional markers, and
the whole sequence runs inside one transaction whose `catch` issues a
rollback.  Returns the attempted events and whether the call succeeded. -/
def executeProcedureMySql (original bodyExec : List Char) (defined : String → Bool)
    (plan : MySqlPlan) : List DbEvent × Bool :=
  if plan.beginOk then
    if (mysqlProcBody (scanCaptures '@' original)
          (rewritePositional defined (listTrim bodyExec)).1.asString
          (rewritePositional defined (listTrim bodyExec)).2 plan).2 then
      (.begin :: (mysqlProcBody (scanCaptures '@' original)
          (rewritePositional defined (listTrim bodyExec)).1.asString
          (rewritePositional defined (listTrim bodyExec)).2 plan).1, true)
    else
      (.begin :: (mysqlProcBody (scanCaptures '@' original)
          (rewritePositional defined (listTrim bodyExec)).1.asString
          (rewritePositional defined (listTrim bodyExec)).2 plan).1 ++ [.rollback], false)
  else ([.rollback], false)

/-- Parameter types a `ParameterSpec` can declare. -/
inductive ParamType where
  | string
  | number
  | date
  | other
  deriving DecidableEq, Repr

/-- `stringConstraints` of a parameter configuration. -/
structure StringConstraints where
  maxLength : Option Nat
  allowedValues : Option String
  deriving DecidableEq, Repr

/-- `numberConstraints` of a parameter configuration.  Numeric values are
modelled exactly as rationals; IEEE-double rounding of extreme literals is
outside this model. -/
structure NumberConstraints where
  minimum : Option Rat
  maximum : Option Rat
  precision : Option Nat
  deriving DecidableEq, Repr

/-- `dateConstraints` of a parameter configuration. -/
structure DateConstraints where
  dateFormat : Option String
  deriving DecidableEq, Repr

/-- One declared parameter (`ParameterSpec`). -/
structure ParamConfig where
  name : String
  type : ParamType
  required : Bool
  stringConstraints : Option StringConstraints := none
  numberConstraints : Option NumberConstraints := none
  dateConstraints : Option DateConstraints := none
  deriving DecidableEq, Repr

/-- Value of a decimal digit string. -/
def digitsVal (ds : List Char) : Nat :=
  ds.foldl (fun acc c => acc * 10 + (c.toNat - 48)) 0

/-- Value of a fractional digit string. -/
def fracVal (fs : List Char) : Rat :=
  (digitsVal fs : Rat) / ((10 : Rat) ^ fs.length)

/-- Strip a leading `+` or `-` sign. -/
def stripSign (l : List Char) : List Char :=
  match l with
  | '+' :: r => r
  | '-' :: r => r
  | _ => l

/-- The sign factor of a leading `-`. -/
def signOf (l : List Char) : Rat :=
  match l with
  | '-' :: _ => -1
  | _ => 1

/-- The fractional digit run after a leading dot, if any. -/
def dotFrac (r1 : List Char) : List Char :=
  match r1 with
  | '.' :: r2 => r2.takeWhile Char.isDigit
  | _ => []

/-- Numeric value of the leading literal of a whitespace-stripped string. -/
def litPrefixValCore (l : List Char) : Option Rat :=
  let ds := (stripSign l).takeWhile Char.isDigit
  let fs := dotFrac ((stripSign l).dropWhile Char.isDigit)
  if ds.isEmpty && fs.isEmpty then none
  else some (signOf l * ((digitsVal ds : Rat) + fracVal fs))

/-- JS `parseFloat`: skip leading whitespace, then take the longest numeric
prefix; `none` plays the role of `NaN`. -/
def litPrefixVal (s : List Char) : Option Rat :=
  litPrefixValCore (s.dropWhile Char.isWhitespace)

/-- The source's numeric-literal test: `[+-]?` then either one or more
digits optionally followed by a dot and any digits, or a dot followed by
one or more digits, anchored at both ends. -/
def numLitMatch (s : List Char) : Bool :=
  let ds := (stripSign s).takeWhile Char.isDigit
  let r1 := (stripSign s).dropWhile Char.isDigit
  if !ds.isEmpty then
    match r1 with
    | [] => true
    | '.' :: r2 => r2.all Char.isDigit
    | _ => false
  else
    match r1 with
    | '.' :: r2 => !r2.isEmpty && r2.all Char.isDigit
    | _ => false

/-- The numeric literal grammar exactly as the specification words it:
`[+-]?digits[.digits]` — one or more integer digits, then optionally a dot
followed by one or more digits.  Stated from the spec for comparison with
the source's `numLitMatch`. -/
def specNumberGrammar (s : List Char) : Bool :=
  let ds := (stripSign s).takeWhile Char.isDigit
  let r1 := (stripSign s).dropWhile Char.isDigit
  !ds.isEmpty &&
    (match r1 with
     | [] => true
     | '.' :: r2 => !r2.isEmpty && r2.all Char.isDigit
     | _ => false)

/-- JS `value.toString().split(dot)[1]?.length || 0`. -/
def decimalPlaces (v : String) : Nat :=
  match splitOnChar '.' v.data with
  | _ :: second :: _ => second.length
  | _ => 0

/-- `q? < m` with `none` behaving like `NaN` (all comparisons false). -/
def ltOpt (q? : Option Rat) (m : Rat) : Bool :=
  match q? with
  | some q => decide (q < m)
  | none => false

/-- `m < q?` with `none` behaving like `NaN`. -/
def gtOpt (q? : Option Rat) (m : Rat) : Bool :=
  match q? with
  | some q => decide (m < q)
  | none => false

/-- `Number.isInteger` with `none` behaving like `NaN` (not an integer). -/
def isIntOpt (q? : Option Rat) : Bool :=
  match q? with
  | some q => decide (q.den = 1)
  | none => false

/-- Message fragment for an optional bound. -/
def ratMsg (o : Option Rat) : String :=
  match o with
  | some m => toString m
  | none => ""

/-- `validateNumberConstraints(value, constraints)` from server.js: note it
receives the *raw* value (`parseFloat(value)` and the decimal-place count
of `value.toString()`), not the trimmed `stringValue`. -/
def validateNumberConstraints (value : String) (nc : NumberConstraints) :
    Except String Unit :=
  let q? := litPrefixVal value.data
  if (match nc.minimum with | some m => ltOpt q? m | none => false) then
    .error ("Value must be greater than or equal to " ++ ratMsg nc.minimum)
  else if (match nc.maximum with | some m => gtOpt q? m | none => false) then
    .error ("Value must be less than or equal to " ++ ratMsg nc.maximum)
  else
    match nc.precision with
    | some 0 => if !isIntOpt q? then .error ("Value must be a whole number") else .ok ()
    | some p =>
      if decimalPlaces value > p then
        .error ("Value cannot have more than " ++ toString p ++ " decimal places")
      else .ok ()
    | none => .ok ()

/-- The comma list of `allowedValues`: split, trim, drop empties. -/
def splitTrimNonempty (s : String) : List String :=
  ((splitOnChar ',' s.data).map (fun l => (listTrim l).asString)).filter
    (fun v => !(v.data.isEmpty))

/-- `validateStringConstraints(value, constraints)` from server.js; `value`
here is the trimmed string.  Falsy guards (`!value`, `maxLength` zero,
empty `allowedValues` string) are preserved. -/
def validateStringConstraints (value : String) (sc : StringConstraints) :
    Except String Unit :=
  if value.data.isEmpty then .ok ()
  else if (match sc.maxLength with
      | some m => !(m == 0) && decide (value.length > m)
      | none => false) then
    .error ("Value exceeds maximum length of " ++ toString (sc.maxLength.getD 0) ++ " characters")
  else
    match sc.allowedValues with
    | some av =>
      if !av.data.isEmpty then
        if !(splitTrimNonempty av).isEmpty && !((splitTrimNonempty av).contains value) then
          .error ("Value must be one of: " ++ String.intercalate (", ") (splitTrimNonempty av))
        else .ok ()
      else .ok ()
    | none => .ok ()

/-- A validated bind value. -/
inductive BindValue where
  | str (s : String)
  | num (q : Rat)
  | dateV (s : String)
  deriving DecidableEq, Repr

/-- Worker for plain (non-regex) global substring replacement, scanning
left to right and not rescanning replacements. -/
def replaceSubGo (pat repl : List Char) : Nat → List Char → List Char
  | _ + 1, [] => []
  | k + 1, _ :: rest => replaceSubGo pat repl k rest
  | 0, [] => []
  | 0, c :: rest =>
    if matchesAt pat (c :: rest) then repl ++ replaceSubGo pat repl (pat.length - 1) rest
    else c :: replaceSubGo pat repl 0 rest

/-- Global substring replacement on strings (the literal-token
`.replace(/TOK/g, ...)` chains of the source). -/
def replaceSubAll (pat repl s : String) : String :=
  if pat.isEmpty then s else (replaceSubGo pat.data repl.data 0 s.data).asString

/-- The Oracle-token to date-fns-token translation chain of
`validateDateFormat` (the `AM|PM` alternation is two passes here, which is
equivalent since neither replacement can create the other token). -/
def toFnsFormat (f : String) : String :=
  let f1 := replaceSubAll ("YYYY") ("yyyy") f
  let f2 := replaceSubAll ("YY") ("yy") f1
  let f3 := replaceSubAll ("MM") ("MM") f2
  let f4 := replaceSubAll ("DD") ("dd") f3
  let f5 := replaceSubAll ("HH24") ("HH") f4
  let f6 := replaceSubAll ("HH") ("hh") f5
  let f7 := replaceSubAll ("MI") ("mm") f6
  let f8 := replaceSubAll ("SS") ("ss") f7
  let f9 := replaceSubAll ("AM") ("a") f8
  replaceSubAll ("PM") ("a") f9

/-- `validateDateFormat(value, format)`, with the external `date-fns`
`parse` success modelled by the `dateParse` argument. -/
def validateDateFormat (dateParse : String → String → Bool) (value format : String) :
    Except String Unit :=
  if dateParse value (toFnsFormat format) then .ok ()
  else .error ("Invalid date format. Expected format: " ++ format)

/-- `convertAndValidateValue(paramType, value, paramName, paramConfig)`
from server.js.  `value = none` models `null`/`undefined`; otherwise the
raw string.  The external `date-fns` parser is the `dateParse` argument. -/
def convertAndValidateValue (dateParse : String → String → Bool) (paramType : String)
    (value : Option String) (paramName : String) (cfg : Option ParamConfig) :
    Except String (Option BindValue) :=
  let blank := match value with
    | none => true
    | some v => (listTrim v.data).isEmpty
  if blank then
    if (match cfg with | some c => c.required | none => false) then
      .error ("Required " ++ paramType ++ " parameter " ++ quoteName paramName
        ++ " must be provided.")
    else .ok none
  else
    let rawValue := value.getD ("")
    let stringValue := jsTrim rawValue
    match (match cfg with | some c => c.type | none => ParamType.string) with
    | .string =>
      match (match cfg with | some c => c.stringConstraints | none => none) with
      | some sc =>
        match validateStringConstraints stringValue sc with
        | .error e => .error ("Invalid value for " ++ paramType ++ " parameter "
            ++ quoteName paramName ++ ": " ++ e)
        | .ok _ => .ok (some (.str stringValue))
      | none => .ok (some (.str stringValue))
    | .number =>
      if !numLitMatch stringValue.data then
        .error ("Invalid number value for " ++ paramType ++ " parameter "
          ++ quoteName paramName ++ ": " ++ rawValue)
      else
        match litPrefixVal stringValue.data with
        | none =>
          .error ("Invalid number value for " ++ paramType ++ " parameter "
            ++ quoteName paramName ++ ": " ++ rawValue)
        | some q =>
          match (match cfg with | some c => c.numberConstraints | none => none) with
          | some ncs =>
            match validateNumberConstraints rawValue ncs with
            | .error e => .error ("Invalid value for " ++ paramType ++ " parameter "
                ++ quoteName paramName ++ ": " ++ e)
            | .ok _ => .ok (some (.num q))
          | none => .ok (some (.num q))
    | .date =>
      let df0 := match cfg with
        | some c =>
          match c.dateConstraints with
          | some dc => dc.dateFormat.getD ("")
          | none => ""
        | none => ""
      let dateFormat := if df0.data.isEmpty then "YYYY-MM-DD" else df0
      match validateDateFormat dateParse rawValue dateFormat with
      | .error e => .error ("Invalid date format for " ++ paramType ++ " parameter "
          ++ quoteName paramName ++ ": " ++ e)
      | .ok _ => .ok (some (.dateV rawValue))
    | .other => .ok (some (.str stringValue))

/-- `configs.find(p => p.name === param)`. -/
def findConfig (cfgs : List ParamConfig) (p : String) : Option ParamConfig :=
  cfgs.find? (fun c => c.name == p)

/-- The procedure handler's path-parameter loop: for each extracted
`{name}`, if the bind source defines it, rewrite the brace placeholder to
`:name` in the execution body and validate (a thrown validation error
aborts the loop); if undefined and declared required, throw; if undefined
and optional, skip (no bind is recorded). -/
def validatePathLoop (dateParse : String → String → Bool) (src : String → Option String)
    (cfgs : List ParamConfig) :
    List String → List Char → Except String (List (String × Option BindValue) × List Char)
  | [], body => .ok ([], body)
  | p :: rest, body =>
    match src p with
    | some v =>
      match convertAndValidateValue dateParse ("path") (some v) p (findConfig cfgs p) with
      | .error e => .error e
      | .ok bv =>
        match validatePathLoop dateParse src cfgs rest
            (replaceSubGo ('{' :: (p.data ++ ['}'])) (':' :: p.data) 0 body) with
        | .error e => .error e
        | .ok r => .ok ((p, bv) :: r.1, r.2)
    | none =>
      if (match findConfig cfgs p with | some c => c.required | none => false) then
        .error ("Required path parameter " ++ quoteName p ++ " must be provided.")
      else validatePathLoop dateParse src cfgs rest body

/-- The procedure handler's query-parameter loop: every extracted `:name`
is validated (absent values become `none` and may fail the required
check); the first thrown error aborts the loop. -/
def validateQueryLoop (dateParse : String → String → Bool) (src : String → Option String)
    (cfgs : List ParamConfig) :
    List String → Except String (List (String × Option BindValue))
  | [] => .ok []
  | p :: rest =>
    match convertAndValidateValue dateParse ("query") (src p) p (findConfig cfgs p) with
    | .error e => .error e
    | .ok bv =>
      match validateQueryLoop dateParse src cfgs rest with
      | .error e => .error e
      | .ok r => .ok ((p, bv) :: r)

/-- Parameter validation of the procedure branch of the `/api/:path(*)`
handler: extract the parameter classes from the SQL text, run the path
loop (with its body rewriting) and then the query loop.  The surrounding
`try` turns the first thrown error into the whole phase's error. -/
def validateProcParams (dateParse : String → String → Bool) (body : List Char)
    (src : String → Option String) (pathConfigs queryConfigs : List ParamConfig) :
    Except String (List (String × Option BindValue) × List Char) :=
  match validatePathLoop dateParse src pathConfigs (extractParamDetails body).pathParams body with
  | .error e => .error e
  | .ok r =>
    match validateQueryLoop dateParse src queryConfigs (extractParamDetails body).queryParams with
    | .error e => .error e
    | .ok binds2 => .ok (r.1 ++ binds2, r.2)

/-- Substring containment, JS `String.prototype.includes`. -/
def containsSub (pat : List Char) : List Char → Bool
  | [] => pat.isEmpty
  | c :: rest => matchesAt pat (c :: rest) || containsSub pat rest

/-- The status chosen by the handler's `catch`: 400 for messages that
include one of the validation markers, 500 otherwise. -/
def statusOf (msg : String) : Nat :=
  if containsSub ("must be provided").data msg.data
      || containsSub ("not found from procedure").data msg.data
      || containsSub ("Invalid").data msg.data then 400
  else 500

/-- The error envelope sent by the handler's `catch`: a single `error`
string (never a list). -/
structure ApiError where
  success : Bool
  error : String
  deriving DecidableEq, Repr

/-- Status and body produced for a thrown error. -/
def errorResponse (msg : String) : Nat × ApiError :=
  (statusOf msg, { success := false, error := msg })

/-- One path-parameter check in isolation (spec-side formulation used to
state fail-fast behaviour). -/
def pathCheckErr (dateParse : String → String → Bool) (src : String → Option String)
    (cfgs : List ParamConfig) (p : String) : Option String :=
  match src p with
  | some v =>
    match convertAndValidateValue dateParse ("path") (some v) p (findConfig cfgs p) with
    | .error e => some e
    | .ok _ => none
  | none =>
    if (match findConfig cfgs p with | some c => c.required | none => false) then
      some ("Required path parameter " ++ quoteName p ++ " must be provided.")
    else none

/-- One query-parameter check in isolation. -/
def queryCheckErr (dateParse : String → String → Bool) (src : String → Option String)
    (cfgs : List ParamConfig) (p : String) : Option String :=
  match convertAndValidateValue dateParse ("query") (src p) p (findConfig cfgs p) with
  | .error e => some e
  | .ok _ => none

/-- First failure among the ordered per-parameter checks: path parameters
in extraction order, then query parameters. -/
def firstProcError (dateParse : String → String → Bool) (src : String → Option String)
    (pathConfigs queryConfigs : List ParamConfig) (d : ParamDetails) : Option String :=
  ((d.pathParams.map (pathCheckErr dateParse src pathConfigs)) ++
    (d.queryParams.map (queryCheckErr dateParse src queryConfigs))).findSome? id

/-- The error component of an `Except`. -/
def errOf {α : Type} : Except String α → Option String
  | .error e => some e
  | .ok _ => none

/-- Whether an `Except` succeeded. -/
def isOkE {α : Type} : Except String α → Bool
  | .error _ => false
  | .ok _ => true

/-- The number-constraint acceptance condition stated declaratively from
the specification: bounds on the parsed value, `precision = 0` forces an
integral value, `precision = p > 0` bounds the digits after the decimal
point of the written value. -/
def numConstraintsOkSpec (nc : NumberConstraints) (v : String) : Bool :=
  ((match nc.minimum with
    | some m => decide (m ≤ (litPrefixVal v.data).getD 0)
    | none => true) &&
   (match nc.maximum with
    | some m => decide ((litPrefixVal v.data).getD 0 ≤ m)
    | none => true)) &&
  (match nc.precision with
   | some 0 => decide (((litPrefixVal v.data).getD 0).den = 1)
   | some p => decide (decimalPlaces v ≤ p)
   | none => true)

/-- One hexadecimal digit, lowercase. -/
def hexDigit (n : Nat) : Char :=
  if n < 10 then Char.ofNat (48 + n) else Char.ofNat (87 + n)

/-- JSON string escaping of one character, as `JSON.stringify` performs
it: quote and backslash escaped, the short control escapes, `\u00XX` for
the remaining control characters. -/
def jsonEscapeChar (c : Char) : List Char :=
  if c = '"' then ['\\', '"']
  else if c = '\\' then ['\\', '\\']
  else if c = Char.ofNat 8 then ['\\', 'b']
  else if c = Char.ofNat 9 then ['\\', 't']
  else if c = Char.ofNat 10 then ['\\', 'n']
  else if c = Char.ofNat 12 then ['\\', 'f']
  else if c = Char.ofNat 13 then ['\\', 'r']
  else if c.toNat < 32 then
    ['\\', 'u', '0', '0', hexDigit (c.toNat / 16), hexDigit (c.toNat % 16)]
  else [c]

/-- A JSON string literal. -/
def jsonQuote (s : String) : List Char :=
  '"' :: (s.data.foldr (fun c acc => jsonEscapeChar c ++ acc) ['"'])

/-- Character-separated concatenation. -/
def intercalateChar (sep : Char) : List (List Char) → List Char
  | [] => []
  | [x] => x
  | x :: y :: t => x ++ sep :: intercalateChar sep (y :: t)

/-- `JSON.stringify` of the normalized bind-source map, modelled as a flat
object with string values in insertion order (path captures, query-string
and body values are strings at this point of the handler). -/
def jsonStringify (src : List (String × String)) : String :=
  ('{' :: intercalateChar ','
      (src.map (fun kv => jsonQuote kv.1 ++ ':' :: jsonQuote kv.2)) ++ ['}']).asString

/-- The handler's `paramValue.replace(/'/g, "''")` ("Basic SQL injection
prevention"): every single quote is doubled. -/
def sanitizeQuotes : List Char → List Char
  | [] => []
  | c :: rest =>
    if c = squote then squote :: squote :: sanitizeQuotes rest
    else c :: sanitizeQuotes rest

/-- Quote doubling stated independently as a per-character expansion, for
comparison with the scanning `sanitizeQuotes`. -/
def specQuoteDoubled (s : List Char) : List Char :=
  s.foldr (fun c acc => (if c = squote then [squote, squote] else [c]) ++ acc) []

/-- The dollar-bind processing of the `/api/:path(*)` handler: when the
original procedure body contains `$name`, the whole normalized bind source
is JSON-stringified, its single quotes doubled, bound as the one input
parameter `name`, and every `$name\b` in the execution body is rewritten
to `:name`.  Returns `(name, bound value, rewritten body)`. -/
def processDollar (body : List Char) (src : List (String × String)) :
    Option (String × String × List Char) :=
  match extractDollarParam body with
  | none => none
  | some name =>
    some (name, (sanitizeQuotes (jsonStringify src).data).asString,
      replaceTok '$' name.data (':' :: name.data) body)

/-- Result of `jwt.verify` with the key fetched for the token's `kid`:
success carries the token's optional `jti` claim; `expired` is
`TokenExpiredError`, `invalid` is `JsonWebTokenError` (signature
mismatch). -/
inductive VerifyOutcome where
  | ok (jti : Option String)
  | expired
  | invalid
  deriving DecidableEq, Repr

/-- The environment `validateToken` runs against.  `decodedKid` models
`jwt.decode`: `none` when the token cannot be decoded or lacks
header/payload, `some kid?` when decoded with an optional `kid` header.
`keyLookup` is the `giis_token_key` table, `sessionLookup` the
`giis_auth_session` table keyed by `jwt_id`. -/
structure TokenEnv where
  requireToken : Bool
  authHeader : Option String
  decodedKid : Option (Option String)
  keyLookup : String → Option String
  verifyResult : VerifyOutcome
  sessionLookup : String → Option String

/-- Outcome of the token middleware: `proceed` calls `next()` (carrying
the resolved user for a token-required endpoint), `unauthorized` sends a
401 with the given reason. -/
inductive AuthOutcome where
  | proceed (user : Option String)
  | unauthorized (reason : String)
  deriving DecidableEq, Repr

/-- `authHeader.split(' ')[1]`. -/
def bearerToken (h : String) : Option String :=
  match (splitOnChar ' ' h.data).get? 1 with
  | none => none
  | some t => some t.asString

/-- `validateToken` from server.js as a total function of its environment:
every failure path is a 401 response; the success path resolves the
session user.  Falsy-string checks (`!token`, empty key) are preserved. -/
def validateToken (env : TokenEnv) : AuthOutcome :=
  if !env.requireToken then .proceed none
  else
    match env.authHeader with
    | none => .unauthorized ("No authorization header provided")
    | some h =>
      match bearerToken h with
      | none => .unauthorized ("No token provided")
      | some t =>
        if t.data.isEmpty then .unauthorized ("No token provided")
        else
          match env.decodedKid with
          | none => .unauthorized ("Invalid token structure")
          | some none => .unauthorized ("Token missing keyId")
          | some (some kid) =>
            match env.keyLookup kid with
            | none => .unauthorized ("Invalid token")
            | some k =>
              if k.data.isEmpty then .unauthorized ("Invalid token")
              else
                match env.verifyResult with
                | .expired => .unauthorized ("Token has expired")
                | .invalid => .unauthorized ("Invalid token")
                | .ok none => .unauthorized ("Invalid token")
                | .ok (some jti) =>
                  match env.sessionLookup jti with
                  | none => .unauthorized ("Invalid token")
                  | some uid => .proceed (some uid)

/-- All guard checks pass, stated declaratively from the spec's step
list: header and non-empty token present, token decodes with a `kid`, the
key is found and non-empty, the signature verifies with a `jti`, and the
session row exists. -/
def authChecksPass (env : TokenEnv) : Bool :=
  match env.authHeader with
  | none => false
  | some h =>
    match bearerToken h with
    | none => false
    | some t =>
      !t.data.isEmpty &&
      (match env.decodedKid with
       | some (some kid) =>
         (match env.keyLookup kid with
          | some k =>
            !k.data.isEmpty &&
            (match env.verifyResult with
             | .ok (some jti) => (env.sessionLookup jti).isSome
             | _ => false)
          | none => false)
       | _ => false)

/-- The subject identifier resolved from the session row of the token's
`jti`. -/
def sessionUser (env : TokenEnv) : Option String :=
  match env.verifyResult with
  | .ok (some jti) => env.sessionLookup jti
  | _ => none

/-- JS object property assignment `mp[k] = v`. -/
def setKey (mp : String → Option String) (k v : String) : String → Option String :=
  fun x => if x = k then some v else mp x

/-- The `appUser` injection of `validateToken`: `req.query.appUser = userId`
for GET requests, `req.body.appUser = userId` otherwise. -/
def injectAppUser (method : String) (q b : String → Option String) (uid : String) :
    (String → Option String) × (String → Option String) :=
  if method = "GET" then (setKey q ("appUser") uid, b)
  else (q, setKey b ("appUser") uid)

/-- Right-biased map union, the semantics of a JS spread
`{...m1, ...m2}`. -/
def mergeMaps (m1 m2 : String → Option String) : String → Option String :=
  fun k =>
    match m2 k with
    | some v => some v
    | none => m1 k

/-- The procedure bind source of the handler:
`{...pathParams, ...req.query}` for GET,
`{...pathParams, ...req.query, ...req.body}` otherwise. -/
def procBindSource (method : String) (path q b : String → Option String) :
    String → Option String :=
  if method = "GET" then mergeMaps path q else mergeMaps (mergeMaps path q) b

/-- The query bind source of the handler: `{...pathParams, ...req.query}`
for GET, `{...pathParams, ...req.body}` otherwise. -/
def queryBindSource (method : String) (path q b : String → Option String) :
    String → Option String :=
  if method = "GET" then mergeMaps path q else mergeMaps path b

/-- Truthiness-and-nonblank test `s && s.trim() !== ''` used for
`sqlProcedure`/`sqlQuery`. -/
def hasText (s : Option String) : Bool :=
  match s with
  | some t => !(listTrim t.data).isEmpty
  | none => false

/-- The success envelope `res.json({success: true, data: ...})`. -/
structure ApiResponse where
  success : Bool
  data : List (List (String × String))
  deriving DecidableEq, Repr

/-- The execution dispatch and response assembly of the handler's success
path: the query branch runs for `isQueryOnly` or `isProcedureThenQuery`
(with a truthy procedure result), `queryResult` stays `null` otherwise,
and the response is `{success: true, data: queryResult?.rows || []}` — the
procedure's output binds are not part of the envelope. -/
def runEndpoint (sqlProcedure sqlQuery : Option String)
    (procOut : List (String × JsValue))
    (queryRows : List (List (String × String))) : ApiResponse :=
  let hasP := hasText sqlProcedure
  let hasQ := hasText sqlQuery
  let queryResult : Option (List (List (String × String))) :=
    if (hasQ && !hasP) || (hasP && hasQ) then some queryRows else none
  { success := true, data := queryResult.getD [] }

/-- One element of the compiled route pattern: a literal character (the
regex-escaping step of the source is the identity at this level) or a
named capture group `(?<name>[^/]+)`. -/
inductive UrlTok where
  | lit (c : Char)
  | cap (n : String)
  deriving DecidableEq, Repr

/-- `convertUrlPatternToRegex`'s trailing-segment detection
(`regexString.match(/\/{(\w+)}$/)`), returning the base pattern and the
trailing parameter name. -/
def detectTrailing (p : List Char) : Option (List Char × List Char) :=
  match p.reverse with
  | '}' :: rest =>
    let w := rest.takeWhile isWordChar
    if w.isEmpty then none
    else
      match rest.dropWhile isWordChar with
      | '{' :: '/' :: baseRev => some (baseRev.reverse, w.reverse)
      | _ => none
  | _ => none

/-- Worker for the `\{(\w+)\}` placeholder substitution of the base
pattern (mode 2 skips a just-matched placeholder, as in the scanners). -/
def parseToksGo : Nat → List Char → List UrlTok
  | _, [] => []
  | mode, c :: rest =>
    if mode == 2 && isWordChar c then parseToksGo 2 rest
    else if mode == 2 && c = '}' then parseToksGo 0 rest
    else if c = '{' then
      if !(rest.takeWhile isWordChar).isEmpty
          && ((rest.dropWhile isWordChar).head? = some '}') then
        UrlTok.cap (rest.takeWhile isWordChar).asString :: parseToksGo 2 rest
      else UrlTok.lit '{' :: parseToksGo 0 rest
    else UrlTok.lit c :: parseToksGo 0 rest

/-- The base pattern with `{name}` placeholders as capture tokens and
everything else literal. -/
def parseToks (s : List Char) : List UrlTok := parseToksGo 0 s

/-- Names of the capture tokens, in order. -/
def capNames (ts : List UrlTok) : List String :=
  ts.filterMap fun t =>
    match t with
    | UrlTok.cap n => some n
    | _ => none

/-- The literal text `__CAPTUREGROUP_i__`: the source's back-substitution
loop skips the trailing parameter's entry, so a base placeholder carrying
the trailing name keeps its marker text in the final regex. -/
def markerToks (i : Nat) : List UrlTok :=
  (("__CAPTUREGROUP_") ++ toString i ++ ("__")).data.map UrlTok.lit

/-- The back-substitution step: capture tokens named like the trailing
parameter (always index 0 in `paramNames`) stay as their marker literal;
all other placeholders become capture groups. -/
def replaceTrailingCaps (tr : Option String) (ts : List UrlTok) : List UrlTok :=
  ts.foldr (fun t acc =>
    (match t, tr with
     | UrlTok.cap n, some x => if n = x then markerToks 0 else [t]
     | _, _ => [t]) ++ acc) []

/-- No duplicates (a regex with two groups of the same name is a
`SyntaxError`, which the source catches, yielding a never-matching
endpoint). -/
def nodupB : List String → Bool
  | [] => true
  | x :: xs => !(xs.contains x) && nodupB xs

/-- JS named-group identifier validity for a `\w+`-matched name: a group
name in `(?<name>...)` must be a valid identifier, and among word
characters that fails exactly when the name starts with a digit (so
`new RegExp` on a template like `/api/items/{1}` throws a `SyntaxError`,
which the source catches at server.js:753-756, yielding a never-matching
endpoint). -/
def validGroupName (n : String) : Bool :=
  match n.data with
  | [] => false
  | c :: _ => !c.isDigit

/-- The compiled matcher: base tokens, then an optional trailing-segment
group `(?:\/(?<x>[^/]+))?`, then `\/?$`. -/
structure CompiledRoute where
  base : List UrlTok
  trailing : Option String
  deriving DecidableEq, Repr

/-- `convertUrlPatternToRegex(pattern)` from server.js: strip a trailing
`/{name}`, turn the remaining `{name}` placeholders into capture tokens
(the marker/escape dance of the source is semantics-preserving at token
level except for base placeholders named like the trailing one, which
keep their marker text), and fail — a never-matching endpoint — when
`new RegExp` would throw a `SyntaxError`: the resulting regex declares
the same group name twice, or some group name (a base capture's or the
trailing one's) is not a valid identifier, i.e. starts with a digit. -/
def convertUrlPatternToRegex (pattern : List Char) : Option CompiledRoute :=
  match detectTrailing pattern with
  | some (b, x) =>
    if nodupB (capNames (replaceTrailingCaps (some x.asString) (parseToks b)))
        && (capNames (replaceTrailingCaps (some x.asString) (parseToks b))).all validGroupName
        && validGroupName x.asString then
      some ⟨replaceTrailingCaps (some x.asString) (parseToks b), some x.asString⟩
    else none
  | none =>
    if nodupB (capNames (parseToks pattern))
        && (capNames (parseToks pattern)).all validGroupName then
      some ⟨parseToks pattern, none⟩
    else none

/-- Matching semantics of the base part of the generated regex: literals
match themselves, a capture group `(?<n>[^/]+)` matches one non-empty
slash-free run and records it. -/
inductive BaseMatch : List UrlTok → List Char → List (String × List Char) → Prop
  | nil : BaseMatch [] [] []
  | lit {ts : List UrlTok} {s : List Char} {caps : List (String × List Char)} (c : Char) :
      BaseMatch ts s caps → BaseMatch (UrlTok.lit c :: ts) (c :: s) caps
  | cap {ts : List UrlTok} {s : List Char} {caps : List (String × List Char)}
      (n : String) (seg : List Char) :
      seg ≠ [] → (∀ c ∈ seg, c ≠ '/') → BaseMatch ts s caps →
      BaseMatch (UrlTok.cap n :: ts) (seg ++ s) ((n, seg) :: caps)

/-- Matching semantics of the whole anchored regex
`^BASE(?:\/(?<x>[^/]+))?\/?$`: the path splits into a base part, an
optional `/segment` for the trailing group (captured in `trailVal`), and
an optional final slash — nothing else precedes or follows (the match is
anchored at both ends). -/
def RouteMatch (r : CompiledRoute) (path : List Char)
    (caps : List (String × List Char)) (trailVal : Option (List Char)) : Prop :=
  ∃ p1 p2 p3, path = p1 ++ p2 ++ p3 ∧ BaseMatch r.base p1 caps ∧
    (match r.trailing with
     | none => p2 = [] ∧ trailVal = none
     | some _ => (p2 = [] ∧ trailVal = none) ∨
         (∃ seg, seg ≠ [] ∧ (∀ c ∈ seg, c ≠ '/') ∧ p2 = '/' :: seg ∧ trailVal = some seg)) ∧
    (p3 = [] ∨ p3 = ['/'])

end Server

namespace Server

theorem matchesAt_append (name post : List Char) : matchesAt name (name ++ post) = true := by
  induction name with
  | nil => rfl
  | cons a name' ih => simp [matchesAt, ih]

theorem replaceTokGo_skip (m : Char) (name repl : List Char) (l rest : List Char) :
    replaceTokGo m name repl l.length (l ++ rest) = replaceTokGo m name repl 0 rest := by
  induction l with
  | nil => rfl
  | cons a l' ih => simpa [replaceTokGo] using ih

theorem replaceTok_nil (m : Char) (name repl : List Char) :
    replaceTok m name repl [] = [] := rfl

theorem replaceTok_append (m : Char) (name repl base s : List Char) (h : m ∉ base) :
    replaceTok m name repl (base ++ s) = base ++ replaceTok m name repl s := by
  induction base with
  | nil => rfl
  | cons c base' ih =>
    simp only [List.mem_cons, not_or] at h
    have hc : (c == m) = false := beq_eq_false_iff_ne.mpr (fun hh => h.1 hh.symm)
    simp only [replaceTok] at ih ⊢
    rw [List.cons_append]
    simp [replaceTokGo, hc, ih h.2]

theorem replaceTok_nomatch (m : Char) (name repl s : List Char) (h : m ∉ s) :
    replaceTok m name repl s = s := by
  have h2 := replaceTok_append m name repl s [] h
  simpa [replaceTok_nil] using h2

theorem replaceTok_head_match (m : Char) (name repl post : List Char)
    (hb : boundaryOk post = true) :
    replaceTok m name repl (m :: (name ++ post)) = repl ++ replaceTok m name repl post := by
  have hpre : matchesAt name (name ++ post) = true := matchesAt_append name post
  have hdrop : (name ++ post).drop name.length = post := List.drop_left name post
  simp only [replaceTok, replaceTokGo, beq_self_eq_true, hpre, hdrop, hb, Bool.and_self,
    Bool.true_and, Bool.and_true, if_pos]
  have : replaceTokGo m name repl name.length (name ++ post) = replaceTokGo m name repl 0 post :=
    replaceTokGo_skip m name repl name post
  rw [this]

end Server

/-- C1: on SQL text `$a :a` the name `a` is the dollar-bind
(`extractDollarParam` returns it), yet `extractParamDetails` still places
`a` in `queryParams`: the dollar exclusion in the source reads the second
full match of a global regex instead of the capture group, so it never
excludes anything.  This contradicts the classification contract (and the
code's own comment) that a dollar-claimed name is excluded from
`queryParams`. -/
theorem C1_dollar_exclusion_violated :
    Server.extractParamDetails ("$a :a").data =
      { pathParams := [], queryParams := ["a"], outputParams := [] } ∧
    Server.extractDollarParam ("$a :a").data = some ("a") := by
  constructor <;> rfl

/-- C2 counterexample: the procedure output `@newId="42"` is a *string*, so
the orchestrator wraps it in single quotes before substitution; the claim
that it is substituted as the unquoted literal `42` (because it looks
numeric) is false — only non-string values are inlined verbatim. -/
theorem C2_claim_counterexample :
    Server.substituteOutBinds [(("newId"), .str ("42"))] ("SELECT @newId FROM t").data
      = ("SELECT " ++ Server.quoteName ("42") ++ " FROM t").data ∧
    ("SELECT " ++ Server.quoteName ("42") ++ " FROM t") ≠ ("SELECT 42 FROM t") := by
  constructor
  · rfl
  · decide

/-- C2 (amended): each procedure output value is substituted textually for
the trailing query's matching `@name` placeholder before the query executes;
a string output is wrapped in single quotes (even when it spells a number,
so output `@newId="42"` becomes `'42'`), and a non-string output is inlined
verbatim via JS string coercion (the number `42` becomes `42`). -/
theorem C2_output_substitution (v : Server.JsValue) (k : String) (pre post : List Char)
    (h1 : '@' ∉ pre) (h2 : Server.boundaryOk post = true) (h3 : '@' ∉ post) :
    Server.substituteOutBinds [(k, v)] (pre ++ '@' :: (k.data ++ post))
      = pre ++ (Server.renderOutValue v).data ++ post ∧
    Server.renderOutValue (.str ("42")) = Server.quoteName ("42") ∧
    Server.renderOutValue (.num 42) = ("42") := by
  refine ⟨?_, rfl, rfl⟩
  show Server.replaceTok '@' k.data (Server.renderOutValue v).data (pre ++ '@' :: (k.data ++ post))
      = pre ++ (Server.renderOutValue v).data ++ post
  rw [Server.replaceTok_append _ _ _ _ _ h1,
      Server.replaceTok_head_match _ _ _ _ h2,
      Server.replaceTok_nomatch _ _ _ _ h3, List.append_assoc]

/-- C2 witness: concrete substitution of a numeric output and the quoting
facts, at `pre = "SELECT "`, `post = " FROM t"`, output `@newId = 7`. -/
theorem C2_output_substitution_witness :
    Server.substituteOutBinds [(("newId"), .num 7)]
        (("SELECT ").data ++ '@' :: (("newId").data ++ (" FROM t").data))
      = ("SELECT ").data ++ (Server.renderOutValue (.num 7)).data ++ (" FROM t").data ∧
    Server.renderOutValue (.str ("42")) = Server.quoteName ("42") ∧
    Server.renderOutValue (.num 42) = ("42") :=
  C2_output_substitution (.num 7) ("newId") ("SELECT ").data (" FROM t").data
    (by decide) (by decide) (by decide)

namespace Server

theorem runResets_snd (plan : MySqlPlan) (ns : List String) :
    (runResets plan ns).2 = ns.all plan.setNullOk := by
  induction ns with
  | nil => rfl
  | cons n rest ih =>
    by_cases h : plan.setNullOk n <;> simp [runResets, h, ih]

theorem runResets_events (plan : MySqlPlan) (ns : List String) :
    ∀ e ∈ (runResets plan ns).1, ∃ n, e = DbEvent.setNull n := by
  induction ns with
  | nil => simp [runResets]
  | cons n rest ih =>
    by_cases h : plan.setNullOk n
    · simp only [runResets, h, if_pos, List.mem_cons]
      rintro e (rfl | he)
      · exact ⟨n, rfl⟩
      · exact ih e he
    · simp [runResets, h]

theorem runResets_commit_notMem (plan : MySqlPlan) (ns : List String) :
    DbEvent.commit ∉ (runResets plan ns).1 := by
  intro hmem
  obtain ⟨n, hn⟩ := runResets_events plan ns _ hmem
  exact DbEvent.noConfusion hn

theorem runResets_rollback_notMem (plan : MySqlPlan) (ns : List String) :
    DbEvent.rollback ∉ (runResets plan ns).1 := by
  intro hmem
  obtain ⟨n, hn⟩ := runResets_events plan ns _ hmem
  exact DbEvent.noConfusion hn

theorem runSelects_commit_notMem (plan : MySqlPlan) (ns : List String) :
    DbEvent.commit ∉ runSelects plan ns := by
  simp [runSelects]

theorem runSelects_rollback_notMem (plan : MySqlPlan) (ns : List String) :
    DbEvent.rollback ∉ runSelects plan ns := by
  simp [runSelects]

theorem mysqlProcBody_spec (names : List String) (sql : String) (binds : List String)
    (plan : MySqlPlan) :
    (mysqlProcBody names sql binds plan).2
        = (names.all plan.setNullOk && plan.execOk && plan.commitOk) ∧
    ((mysqlProcBody names sql binds plan).1.count DbEvent.commit
        = if (mysqlProcBody names sql binds plan).2 then 1 else 0) ∧
    DbEvent.rollback ∉ (mysqlProcBody names sql binds plan).1 := by
  have hsnd := runResets_snd plan names
  have hcom : (runResets plan names).1.count DbEvent.commit = 0 :=
    List.count_eq_zero.mpr (runResets_commit_notMem plan names)
  have hscom : (runSelects plan names).count DbEvent.commit = 0 :=
    List.count_eq_zero.mpr (runSelects_commit_notMem plan names)
  have hrol := runResets_rollback_notMem plan names
  have hsrol := runSelects_rollback_notMem plan names
  unfold mysqlProcBody
  by_cases hn : names.length > 0
  · rw [if_pos hn]
    by_cases hall : names.all plan.setNullOk = true
    · by_cases he : plan.execOk = true
      · by_cases hc : plan.commitOk = true
        · refine ⟨?_, ?_, ?_⟩ <;>
            simp [hsnd, hall, he, hc, hcom, hscom, hrol, hsrol,
              List.count_append, List.count_cons]
        · simp only [Bool.not_eq_true] at hc
          refine ⟨?_, ?_, ?_⟩ <;>
            simp [hsnd, hall, he, hc, hcom, hscom, hrol, hsrol,
              List.count_append, List.count_cons]
      · simp only [Bool.not_eq_true] at he
        refine ⟨?_, ?_, ?_⟩ <;>
          simp [hsnd, hall, he, hcom, hrol, List.count_append, List.count_cons]
    · simp only [Bool.not_eq_true] at hall
      refine ⟨?_, ?_, ?_⟩ <;> simp [hsnd, hall, hcom, hrol]
  · rw [if_neg hn]
    by_cases he : plan.execOk = true
    · by_cases hc : plan.commitOk = true
      · have hnil : names = [] := List.length_eq_zero.mp (by omega)
        subst hnil
        refine ⟨?_, ?_, ?_⟩ <;> simp [he, hc, List.count_cons]
      · simp only [Bool.not_eq_true] at hc
        have hnil : names = [] := List.length_eq_zero.mp (by omega)
        subst hnil
        refine ⟨?_, ?_, ?_⟩ <;> simp [he, hc, List.count_cons]
    · simp only [Bool.not_eq_true] at he
      have hnil : names = [] := List.length_eq_zero.mp (by omega)
      subst hnil
      refine ⟨?_, ?_, ?_⟩ <;> simp [he, List.count_cons]

end Server

/-- C3 counterexample: procedure body `CALL p(:v, @x)` with one output
parameter `x`; every primitive succeeds except the follow-up
`SELECT @x as value` used to recover the output — a failing step of the
emulation sequence.  The source catches that error and only logs it, so the
transaction still commits and the call reports success, contradicting the
claim that the sequence is committed only if every step of it succeeds and
rolled back on any failure in the sequence. -/
theorem C3_claim_counterexample :
    Server.executeProcedureMySql ("CALL p(:v, @x)").data ("CALL p(:v, @x)").data
        (fun n => n == ("v")) ⟨true, fun _ => true, true, fun _ => false, true⟩
      = ([.begin, .setNull ("x"), .exec ("CALL p(?, @x)") [("v")],
          .selectOut ("x") false, .commit], true) ∧
    (⟨true, fun _ => true, true, fun _ => false, true⟩ : Server.MySqlPlan).selectOk ("x")
      = false := by
  constructor <;> rfl

/-- C3 (amended): the MySQL OUT-parameter emulation runs inside one
transaction; it commits (exactly one commit event, and the call succeeds)
if and only if the transaction begin, every session-variable reset, the
rewritten statement's execution and the commit itself succeed, and it rolls
back exactly when that conjunction fails.  Failures of the output-recovery
`SELECT`s are caught and logged by the source and do **not** prevent the
commit (they are absent from the condition). -/
theorem C3_transaction_discipline (original bodyExec : List Char)
    (defined : String → Bool) (plan : Server.MySqlPlan) :
    ((Server.executeProcedureMySql original bodyExec defined plan).1.count
        Server.DbEvent.commit = 1
      ↔ (plan.beginOk && (Server.scanCaptures '@' original).all plan.setNullOk
          && plan.execOk && plan.commitOk) = true) ∧
    ((Server.executeProcedureMySql original bodyExec defined plan).2
      = (plan.beginOk && (Server.scanCaptures '@' original).all plan.setNullOk
          && plan.execOk && plan.commitOk)) ∧
    (Server.DbEvent.rollback ∈ (Server.executeProcedureMySql original bodyExec defined plan).1
      ↔ (plan.beginOk && (Server.scanCaptures '@' original).all plan.setNullOk
          && plan.execOk && plan.commitOk) = false) := by
  obtain ⟨h1, h2, h3⟩ := Server.mysqlProcBody_spec (Server.scanCaptures '@' original)
    (Server.rewritePositional defined (Server.listTrim bodyExec)).1.asString
    (Server.rewritePositional defined (Server.listTrim bodyExec)).2 plan
  unfold Server.executeProcedureMySql
  by_cases hb : plan.beginOk = true
  · rw [if_pos hb]
    by_cases hs : (Server.mysqlProcBody (Server.scanCaptures '@' original)
        (Server.rewritePositional defined (Server.listTrim bodyExec)).1.asString
        (Server.rewritePositional defined (Server.listTrim bodyExec)).2 plan).2 = true
    · rw [if_pos hs]
      rw [hs] at h2
      refine ⟨?_, ?_, ?_⟩ <;>
        simp [hb, ← h1, hs, h2, h3, List.count_cons, Bool.and_assoc]
    · rw [if_neg hs]
      simp only [Bool.not_eq_true] at hs
      rw [hs] at h2
      simp only [if_neg (by simp : ¬(false = true))] at h2
      refine ⟨?_, ?_, ?_⟩ <;>
        simp [hb, ← h1, hs, h2, h3, List.count_cons, List.count_append, Bool.and_assoc]
  · simp only [Bool.not_eq_true] at hb
    rw [hb]
    refine ⟨?_, ?_, ?_⟩ <;> simp [hb, List.count_cons]

namespace Server

theorem findSome?_append_of_none {α β : Type} (f : α → Option β) (l1 l2 : List α)
    (h : l1.findSome? f = none) : (l1 ++ l2).findSome? f = l2.findSome? f := by
  induction l1 with
  | nil => simp
  | cons a l ih =>
    cases hfa : f a
    · simp only [List.findSome?_cons, hfa] at h
      simp only [List.cons_append, List.findSome?_cons, hfa]
      exact ih h
    · simp [List.findSome?_cons, hfa] at h

theorem findSome?_append_of_some {α β : Type} (f : α → Option β) (l1 l2 : List α)
    (b : β) (h : l1.findSome? f = some b) : (l1 ++ l2).findSome? f = some b := by
  induction l1 with
  | nil => simp [List.findSome?] at h
  | cons a l ih =>
    cases hfa : f a
    · simp only [List.findSome?_cons, hfa] at h
      simpa only [List.cons_append, List.findSome?_cons, hfa] using ih h
    · simp only [List.findSome?_cons, hfa] at h
      simpa only [List.cons_append, List.findSome?_cons, hfa] using h

theorem validatePathLoop_err (dp : String → String → Bool) (src : String → Option String)
    (cfgs : List ParamConfig) (names : List String) :
    ∀ body, errOf (validatePathLoop dp src cfgs names body)
      = (names.map (pathCheckErr dp src cfgs)).findSome? id := by
  induction names with
  | nil => intro body; rfl
  | cons p rest ih =>
    intro body
    simp only [List.map_cons, List.findSome?_cons]
    cases hsv : src p with
    | none =>
      by_cases hreq : (match findConfig cfgs p with | some c => c.required | none => false) = true
      · simp [validatePathLoop, pathCheckErr, hsv, hreq, errOf]
      · simp only [Bool.not_eq_true] at hreq
        simp [validatePathLoop, pathCheckErr, hsv, hreq, ih body]
    | some v =>
      cases hcv : convertAndValidateValue dp ("path") (some v) p (findConfig cfgs p) with
      | error e => simp [validatePathLoop, pathCheckErr, hsv, hcv, errOf]
      | ok bv =>
        cases hrec : validatePathLoop dp src cfgs rest
            (replaceSubGo ('{' :: (p.data ++ ['}'])) (':' :: p.data) 0 body) with
        | error e =>
          have hih := ih (replaceSubGo ('{' :: (p.data ++ ['}'])) (':' :: p.data) 0 body)
          rw [hrec] at hih
          simp [validatePathLoop, pathCheckErr, hsv, hcv, hrec, errOf, ← hih]
        | ok r =>
          have hih := ih (replaceSubGo ('{' :: (p.data ++ ['}'])) (':' :: p.data) 0 body)
          rw [hrec] at hih
          simp [validatePathLoop, pathCheckErr, hsv, hcv, hrec, errOf, ← hih]

theorem validateQueryLoop_err (dp : String → String → Bool) (src : String → Option String)
    (cfgs : List ParamConfig) (names : List String) :
    errOf (validateQueryLoop dp src cfgs names)
      = (names.map (queryCheckErr dp src cfgs)).findSome? id := by
  induction names with
  | nil => rfl
  | cons p rest ih =>
    simp only [List.map_cons, List.findSome?_cons]
    cases hcv : convertAndValidateValue dp ("query") (src p) p (findConfig cfgs p)
    · simp [validateQueryLoop, queryCheckErr, hcv, errOf]
    · cases hrec : validateQueryLoop dp src cfgs rest
      · rw [hrec] at ih
        simp [validateQueryLoop, queryCheckErr, hcv, hrec, errOf, ← ih]
      · rw [hrec] at ih
        simp [validateQueryLoop, queryCheckErr, hcv, hrec, errOf, ← ih]

end Server

/-- C4 counterexample: for SQL text `:a :b` with both values invalid
numbers, the handler's validation loop throws at the first invalid
parameter: the phase's result is the single error for `a`, even though
`b`'s check also fails, and the response built from it is a 400 whose body
carries one `error` string, not an aggregated list. -/
theorem C4_claim_counterexample :
    Server.errOf (Server.validateProcParams (fun _ _ => true) (":a :b").data
        (fun k => if k == ("a") then some ("x") else if k == ("b") then some ("y") else none)
        [] [⟨("a"), .number, false, none, none, none⟩, ⟨("b"), .number, false, none, none, none⟩])
      = some ("Invalid number value for query parameter " ++ Server.quoteName ("a") ++ ": x") ∧
    Server.convertAndValidateValue (fun _ _ => true) ("query") (some ("y")) ("b")
        (some ⟨("b"), .number, false, none, none, none⟩)
      = .error ("Invalid number value for query parameter " ++ Server.quoteName ("b") ++ ": y") ∧
    Server.errorResponse
        ("Invalid number value for query parameter " ++ Server.quoteName ("a") ++ ": x")
      = (400, (⟨false,
          "Invalid number value for query parameter " ++ Server.quoteName ("a") ++ ": x"⟩ :
            Server.ApiError)) := by
  refine ⟨?_, ?_, ?_⟩ <;> rfl

/-- C4 (amended): per-parameter validation is fail-fast, not aggregated:
the procedure validation phase returns exactly the error of the first
failing check in order (extracted path parameters, then extracted query
parameters), and nothing after it is reported.  Aggregation into an
`errors` list exists only in the external JSON-schema payload validation,
which is outside this core. -/
theorem C4_failfast_first_error (dp : String → String → Bool) (body : List Char)
    (src : String → Option String) (pcs qcs : List Server.ParamConfig) :
    Server.errOf (Server.validateProcParams dp body src pcs qcs)
      = Server.firstProcError dp src pcs qcs (Server.extractParamDetails body) := by
  unfold Server.validateProcParams Server.firstProcError
  cases h1 : Server.validatePathLoop dp src pcs (Server.extractParamDetails body).pathParams body
  · have hmap := Server.validatePathLoop_err dp src pcs
      (Server.extractParamDetails body).pathParams body
    rw [h1] at hmap
    rw [Server.findSome?_append_of_some _ _ _ _ hmap.symm]
    rfl
  · have hmap := Server.validatePathLoop_err dp src pcs
      (Server.extractParamDetails body).pathParams body
    rw [h1] at hmap
    rw [Server.findSome?_append_of_none _ _ _ hmap.symm]
    cases h2 : Server.validateQueryLoop dp src qcs (Server.extractParamDetails body).queryParams
    · have hq := Server.validateQueryLoop_err dp src qcs
        (Server.extractParamDetails body).queryParams
      rw [h2] at hq
      rw [← hq]
      rfl
    · have hq := Server.validateQueryLoop_err dp src qcs
        (Server.extractParamDetails body).queryParams
      rw [h2] at hq
      rw [← hq]
      rfl

namespace Server

theorem takeWhile_word_append (l1 l2 : List Char) (h : l1.all isWordChar = true)
    (hb : boundaryOk l2 = true) :
    (l1 ++ l2).takeWhile isWordChar = l1 ∧ (l1 ++ l2).dropWhile isWordChar = l2 := by
  induction l1 with
  | nil =>
    cases l2 with
    | nil => simp
    | cons c rest =>
      simp only [boundaryOk, Bool.not_eq_true'] at hb
      simp [List.takeWhile_cons, List.dropWhile_cons, hb]
  | cons a l ih =>
    simp only [List.all_cons, Bool.and_eq_true] at h
    have := ih h.2
    simp [List.takeWhile_cons, List.dropWhile_cons, h.1, this.1, this.2]

theorem extractDollarParam_at (pre name post : List Char) (h2 : '$' ∉ pre)
    (h0 : name ≠ []) (h1 : name.all isWordChar = true) (h3 : boundaryOk post = true) :
    extractDollarParam (pre ++ '$' :: (name ++ post)) = some name.asString := by
  induction pre with
  | nil =>
    have tw := takeWhile_word_append name post h1 h3
    have hne : (name ++ post).takeWhile isWordChar ≠ [] := by rw [tw.1]; exact h0
    simp [extractDollarParam, tw.1, List.isEmpty_iff, h0]
  | cons c pre' ih =>
    simp only [List.mem_cons, not_or] at h2
    have hc : ¬(c = '$') := fun hh => h2.1 hh.symm
    simp only [List.cons_append, extractDollarParam, if_neg hc]
    exact ih h2.2

theorem sanitizeQuotes_eq_spec (s : List Char) :
    sanitizeQuotes s = specQuoteDoubled s := by
  induction s with
  | nil => rfl
  | cons c rest ih =>
    by_cases hc : c = squote <;> simp [sanitizeQuotes, specQuoteDoubled, hc, ih]
  
end Server

/-- C5 counterexample: with bind source `{name: "O'Brien"}` the value bound
for the dollar parameter is the JSON stringification with the single quote
doubled (the handler's "basic SQL injection prevention"), which differs
from the exact JSON stringification the claim requires. -/
theorem C5_claim_counterexample :
    Server.processDollar ("CALL p($data)").data
        [(("name"), ("O") ++ Server.squoteS ++ ("Brien"))]
      = some (("data"),
          ((("\x7b\"name\":\"O") ++ Server.squoteS ++ Server.squoteS ++ ("Brien\"\x7d")),
           ("CALL p(:data)").data)) ∧
    Server.jsonStringify [(("name"), ("O") ++ Server.squoteS ++ ("Brien"))]
      = ("\x7b\"name\":\"O") ++ Server.squoteS ++ ("Brien\"\x7d") ∧
    (("\x7b\"name\":\"O") ++ Server.squoteS ++ Server.squoteS ++ ("Brien\"\x7d"))
      ≠ ("\x7b\"name\":\"O") ++ Server.squoteS ++ ("Brien\"\x7d") := by
  refine ⟨?_, ?_, ?_⟩
  · rfl
  · rfl
  · decide

/-- C5 (amended): for every procedure body containing the dollar-bind
`$name`, the value bound for `name` is the JSON stringification of the
normalized bind-source map with every single quote doubled (the source's
SQL-injection guard), passed as one string parameter, and the `$name`
placeholder in the executed text is replaced by the named input bind
`:name`. -/
theorem C5_dollar_bind (src : List (String × String)) (name pre post : List Char)
    (h0 : name ≠ []) (h1 : name.all Server.isWordChar = true)
    (h2 : '$' ∉ pre) (h3 : Server.boundaryOk post = true) (h4 : '$' ∉ post) :
    Server.processDollar (pre ++ '$' :: (name ++ post)) src
      = some (name.asString,
          ((Server.sanitizeQuotes (Server.jsonStringify src).data).asString,
           pre ++ ':' :: (name ++ post))) ∧
    Server.sanitizeQuotes (Server.jsonStringify src).data
      = Server.specQuoteDoubled (Server.jsonStringify src).data := by
  refine ⟨?_, Server.sanitizeQuotes_eq_spec _⟩
  unfold Server.processDollar
  rw [Server.extractDollarParam_at pre name post h2 h0 h1 h3]
  have hrepl : Server.replaceTok '$' (name.asString).data (':' :: (name.asString).data)
      (pre ++ '$' :: (name ++ post)) = pre ++ ':' :: (name ++ post) := by
    have hdata : (name.asString).data = name := rfl
    rw [hdata]
    rw [Server.replaceTok_append _ _ _ _ _ h2,
        Server.replaceTok_head_match _ _ _ _ h3,
        Server.replaceTok_nomatch _ _ _ _ h4]
    simp
  simp [hrepl]

/-- C5 witness: a concrete dollar bind with bind source `{k: v}`, body
`CALL p($data)`. -/
theorem C5_dollar_bind_witness :
    Server.processDollar (("CALL p(").data ++ '$' :: (("data").data ++ (")").data))
        [(("k"), ("v"))]
      = some (("data"),
          ((Server.sanitizeQuotes (Server.jsonStringify [(("k"), ("v"))]).data).asString,
           ("CALL p(").data ++ ':' :: (("data").data ++ (")").data))) ∧
    Server.sanitizeQuotes (Server.jsonStringify [(("k"), ("v"))]).data
      = Server.specQuoteDoubled (Server.jsonStringify [(("k"), ("v"))]).data :=
  C5_dollar_bind [(("k"), ("v"))] ("data").data ("CALL p(").data (")").data
    (by decide) (by decide) (by decide) (by decide) (by decide)

namespace Server

theorem dropWhile_sublist' (p : Char → Bool) (l : List Char) :
    List.Sublist (l.dropWhile p) l := by
  induction l with
  | nil => simp
  | cons a t ih =>
    by_cases hp : p a
    · rw [List.dropWhile_cons_of_pos hp]
      exact ih.cons a
    · rw [List.dropWhile_cons_of_neg hp]

theorem listTrim_eq_self_dropWhile (s : List Char) (h : listTrim s = s) :
    s.dropWhile Char.isWhitespace = s := by
  have hsub1 := dropWhile_sublist' Char.isWhitespace s
  have hsub2 := dropWhile_sublist' Char.isWhitespace (s.dropWhile Char.isWhitespace).reverse
  have hlen : s.length = (listTrim s).length := by rw [h]
  unfold listTrim at hlen
  rw [List.length_reverse] at hlen
  have l2 := hsub2.length_le
  rw [List.length_reverse] at l2
  have l1 := hsub1.length_le
  exact hsub1.eq_of_length (by omega)

theorem takeWhile_of_all (p : Char → Bool) (l : List Char) (h : l.all p = true) :
    l.takeWhile p = l := by
  induction l with
  | nil => rfl
  | cons a t ih => simp_all [List.takeWhile_cons]

theorem numLitMatch_litPrefixCore (l : List Char) (h : numLitMatch l = true) :
    litPrefixValCore l
      = some (signOf l * ((digitsVal ((stripSign l).takeWhile Char.isDigit) : Rat)
          + fracVal (dotFrac ((stripSign l).dropWhile Char.isDigit)))) := by
  unfold litPrefixValCore
  by_cases hds : ((stripSign l).takeWhile Char.isDigit).isEmpty
  · unfold numLitMatch at h
    simp only [hds, Bool.not_true, Bool.false_eq_true, if_false] at h
    split at h
    · rename_i r2 heq
      simp only [Bool.and_eq_true, Bool.not_eq_true'] at h
      have hfs : dotFrac ((stripSign l).dropWhile Char.isDigit) = r2 := by
        rw [heq]
        unfold dotFrac
        exact takeWhile_of_all Char.isDigit r2 h.2
      rw [hfs]
      simp only [hds, Bool.true_and]
      rw [if_neg]
      simp [h.1]
    · exact absurd h (by simp)
  · simp [hds]

end Server

namespace Server

theorem validateNumberConstraints_ok (v : String) (nc : NumberConstraints) (q : Rat)
    (hq : litPrefixVal v.data = some q) :
    isOkE (validateNumberConstraints v nc) = numConstraintsOkSpec nc v := by
  unfold validateNumberConstraints numConstraintsOkSpec
  rw [hq]
  rcases nc with ⟨mi, ma, pr⟩
  rcases mi with _ | m <;> rcases ma with _ | M <;> rcases pr with _ | (_ | p') <;>
    dsimp only <;> (try split_ifs) <;>
    simp_all [ltOpt, gtOpt, isIntOpt, isOkE, not_lt, not_le, decide_eq_true_eq,
      decide_eq_false_iff_not] <;>
    (by_cases hC : p' + 1 < decimalPlaces v <;>
      first
        | simp [hC, isOkE, not_le.mpr hC]
        | simp [hC, isOkE, not_lt.mp hC])

end Server

/-- C7 counterexample: the value `.5` is accepted by the source's numeric
validation (it satisfies the implementation's literal test), but does not
match the claim's grammar `[+-]?digits[.digits]`, which requires at least
one digit before the dot — so "accepts iff the grammar matches" fails. -/
theorem C7_claim_counterexample :
    Server.isOkE (Server.convertAndValidateValue (fun _ _ => true) ("query") (some (".5")) ("p")
        (some ⟨("p"), .number, false, none, none, none⟩)) = true ∧
    Server.specNumberGrammar (".5").data = false := by
  exact ⟨rfl, rfl⟩

/-- C7 (amended): for a parameter declared with type number and a non-blank
already-trimmed value, validation accepts exactly when the value matches
the source's numeric literal test `[+-]?(digits[.digits*]|.digits)` — which
also accepts `1.` and `.5`, unlike the spec's `[+-]?digits[.digits]` — and,
when number constraints are present: `precision = 0` forces the parsed
value to be integral, `precision = p > 0` bounds the number of digits
written after the decimal point by `p`, and `minimum`/`maximum` bound the
parsed value when set. -/
theorem C7_number_validation (dp : String → String → Bool) (v name : String) (req : Bool)
    (ncs : Option Server.NumberConstraints)
    (h1 : Server.listTrim v.data = v.data) (h2 : v ≠ "") :
    Server.isOkE (Server.convertAndValidateValue dp ("query") (some v) name
        (some ⟨name, .number, req, none, ncs, none⟩))
      = (Server.numLitMatch v.data &&
          (match ncs with
           | some nc => Server.numConstraintsOkSpec nc v
           | none => true)) := by
  have hw : v.data.dropWhile Char.isWhitespace = v.data :=
    Server.listTrim_eq_self_dropWhile _ h1
  have hvne : ¬(v.data.isEmpty = true) := by
    intro hh
    exact h2 (String.ext (by simpa using hh))
  have hsv : Server.jsTrim v = v := by
    unfold Server.jsTrim
    rw [h1]
    cases v with
    | mk d => rfl
  unfold Server.convertAndValidateValue
  dsimp only
  simp only [Option.getD_some]
  rw [h1, if_neg hvne, hsv]
  by_cases hm : Server.numLitMatch v.data = true
  · have hlit : Server.litPrefixVal v.data
        = some (Server.signOf v.data
            * ((Server.digitsVal ((Server.stripSign v.data).takeWhile Char.isDigit) : Rat)
              + Server.fracVal
                  (Server.dotFrac ((Server.stripSign v.data).dropWhile Char.isDigit)))) := by
      unfold Server.litPrefixVal
      rw [hw]
      exact Server.numLitMatch_litPrefixCore v.data hm
    rw [hm]
    simp only [Bool.not_true, Bool.false_eq_true, if_false, hlit]
    rcases ncs with _ | nc
    · simp [Server.isOkE, hm]
    · cases hvnc : Server.validateNumberConstraints v nc with
      | error e =>
        have hok := Server.validateNumberConstraints_ok v nc _ hlit
        rw [hvnc] at hok
        simp only [hvnc]
        simpa [Server.isOkE, hm] using hok
      | ok u =>
        have hok := Server.validateNumberConstraints_ok v nc _ hlit
        rw [hvnc] at hok
        simp only [hvnc]
        simpa [Server.isOkE, hm] using hok
  · simp only [Bool.not_eq_true] at hm
    rw [hm]
    simp [Server.isOkE]

/-- C7 witness: `precision = 2` rejects `1.234` (the amended theorem's
right-hand side evaluates to false) and the hypotheses hold at that
input. -/
theorem C7_number_validation_witness :
    Server.listTrim ("1.234").data = ("1.234").data ∧ ("1.234") ≠ ("") ∧
    Server.isOkE (Server.convertAndValidateValue (fun _ _ => true) ("query")
        (some ("1.234")) ("p")
        (some ⟨("p"), .number, false, none, some ⟨none, none, some 2⟩, none⟩))
      = (Server.numLitMatch ("1.234").data &&
          (match (some ⟨none, none, some 2⟩ : Option Server.NumberConstraints) with
           | some nc => Server.numConstraintsOkSpec nc ("1.234")
           | none => true)) :=
  ⟨by decide, by decide,
    C7_number_validation (fun _ _ => true) ("1.234") ("p") false
      (some ⟨none, none, some 2⟩) (by decide) (by decide)⟩

theorem validateToken_proceed_spec (env : Server.TokenEnv)
    (hr : env.requireToken = true) :
    ∀ u, Server.validateToken env = .proceed u →
      Server.authChecksPass env = true ∧ u = Server.sessionUser env := by
  intro u hu
  cases hah : env.authHeader with
  | none => simp [Server.validateToken, hr, hah] at hu
  | some h =>
    cases hbt : Server.bearerToken h with
    | none => simp [Server.validateToken, hr, hah, hbt] at hu
    | some t =>
      cases hte : t.data.isEmpty with
      | true => simp [Server.validateToken, hr, hah, hbt, hte] at hu
      | false =>
        cases hdk : env.decodedKid with
        | none => simp [Server.validateToken, hr, hah, hbt, hte, hdk] at hu
        | some kid? =>
          cases kid? with
          | none => simp [Server.validateToken, hr, hah, hbt, hte, hdk] at hu
          | some kid =>
            cases hkl : env.keyLookup kid with
            | none => simp [Server.validateToken, hr, hah, hbt, hte, hdk, hkl] at hu
            | some k =>
              cases hke : k.data.isEmpty with
              | true => simp [Server.validateToken, hr, hah, hbt, hte, hdk, hkl, hke] at hu
              | false =>
                cases hvr : env.verifyResult with
                | expired =>
                  simp [Server.validateToken, hr, hah, hbt, hte, hdk, hkl, hke, hvr] at hu
                | invalid =>
                  simp [Server.validateToken, hr, hah, hbt, hte, hdk, hkl, hke, hvr] at hu
                | ok jti? =>
                  cases jti? with
                  | none =>
                    simp [Server.validateToken, hr, hah, hbt, hte, hdk, hkl, hke, hvr] at hu
                  | some jti =>
                    cases hsl : env.sessionLookup jti with
                    | none =>
                      simp [Server.validateToken, hr, hah, hbt, hte, hdk, hkl, hke,
                        hvr, hsl] at hu
                    | some uid =>
                      simp only [Server.validateToken, hr, hah, hbt, hte, hdk, hkl, hke,
                        hvr, hsl, Bool.not_true, Bool.false_eq_true, if_false] at hu
                      injection hu with hu2
                      subst hu2
                      simp [Server.authChecksPass, Server.sessionUser, hah, hbt, hte,
                        hdk, hkl, hke, hvr, hsl]

/-- C8: on a token-requiring endpoint every authorization failure mode —
missing header, missing/empty token, undecodable token, missing `kid`,
unknown or empty key, expired signature, invalid signature, missing `jti`,
unknown session — terminates with a 401 `unauthorized` outcome; the guard
is never bypassed (a `proceed` outcome implies every check passed and
carries the session user); and the expired-token reason is distinct from
the signature-mismatch reason. -/
theorem C8_auth_guard (env : Server.TokenEnv) (hr : env.requireToken = true) :
    (∀ u, Server.validateToken env = .proceed u →
      Server.authChecksPass env = true ∧ u = Server.sessionUser env) ∧
    (env.authHeader = none →
      Server.validateToken env = .unauthorized ("No authorization header provided")) ∧
    (∀ h, env.authHeader = some h → Server.bearerToken h = none →
      Server.validateToken env = .unauthorized ("No token provided")) ∧
    (∀ h t, env.authHeader = some h → Server.bearerToken h = some t →
      t.data.isEmpty = false → env.decodedKid = none →
      Server.validateToken env = .unauthorized ("Invalid token structure")) ∧
    (∀ h t kid, env.authHeader = some h → Server.bearerToken h = some t →
      t.data.isEmpty = false → env.decodedKid = some (some kid) →
      env.keyLookup kid = none →
      Server.validateToken env = .unauthorized ("Invalid token")) ∧
    (∀ h t kid k, env.authHeader = some h → Server.bearerToken h = some t →
      t.data.isEmpty = false → env.decodedKid = some (some kid) →
      env.keyLookup kid = some k → k.data.isEmpty = false →
      env.verifyResult = .expired →
      Server.validateToken env = .unauthorized ("Token has expired")) ∧
    (∀ h t kid k, env.authHeader = some h → Server.bearerToken h = some t →
      t.data.isEmpty = false → env.decodedKid = some (some kid) →
      env.keyLookup kid = some k → k.data.isEmpty = false →
      env.verifyResult = .invalid →
      Server.validateToken env = .unauthorized ("Invalid token")) ∧
    (∀ h t kid k jti, env.authHeader = some h → Server.bearerToken h = some t →
      t.data.isEmpty = false → env.decodedKid = some (some kid) →
      env.keyLookup kid = some k → k.data.isEmpty = false →
      env.verifyResult = .ok (some jti) → env.sessionLookup jti = none →
      Server.validateToken env = .unauthorized ("Invalid token")) ∧
    (("Token has expired") ≠ ("Invalid token")) := by
  refine ⟨?_, ?_, ?_, ?_, ?_, ?_, ?_, ?_, by decide⟩
  · exact validateToken_proceed_spec env hr
  · intro hah
    unfold Server.validateToken
    rw [hr, hah]
    rfl
  · intro h hah hbt
    unfold Server.validateToken
    rw [hr, hah]
    simp [hbt]
  · intro h t hah hbt hte hdk
    unfold Server.validateToken
    rw [hr, hah]
    simp [hbt, hte, hdk]
  · intro h t kid hah hbt hte hdk hkl
    unfold Server.validateToken
    rw [hr, hah]
    simp [hbt, hte, hdk, hkl]
  · intro h t kid k hah hbt hte hdk hkl hke hvr
    unfold Server.validateToken
    rw [hr, hah]
    simp [hbt, hte, hdk, hkl, hke, hvr]
  · intro h t kid k hah hbt hte hdk hkl hke hvr
    unfold Server.validateToken
    rw [hr, hah]
    simp [hbt, hte, hdk, hkl, hke, hvr]
  · intro h t kid k jti hah hbt hte hdk hkl hke hvr hsl
    unfold Server.validateToken
    rw [hr, hah]
    simp [hbt, hte, hdk, hkl, hke, hvr, hsl]

/-- C8 witness: an expired token and a signature-mismatch token on a
token-requiring endpoint, with distinct reasons. -/
theorem C8_auth_guard_witness :
    Server.validateToken ⟨true, some ("Bearer tok"), some (some ("k1")),
        fun _ => some ("KEY"), .expired, fun _ => none⟩
      = .unauthorized ("Token has expired") ∧
    Server.validateToken ⟨true, some ("Bearer tok"), some (some ("k1")),
        fun _ => some ("KEY"), .invalid, fun _ => none⟩
      = .unauthorized ("Invalid token") ∧
    (("Token has expired") ≠ ("Invalid token")) :=
  ⟨(C8_auth_guard ⟨true, some ("Bearer tok"), some (some ("k1")),
        fun _ => some ("KEY"), .expired, fun _ => none⟩ rfl).2.2.2.2.2.1
      ("Bearer tok") ("tok") ("k1") ("KEY") rfl rfl rfl rfl rfl rfl rfl,
   (C8_auth_guard ⟨true, some ("Bearer tok"), some (some ("k1")),
        fun _ => some ("KEY"), .invalid, fun _ => none⟩ rfl).2.2.2.2.2.2.1
      ("Bearer tok") ("tok") ("k1") ("KEY") rfl rfl rfl rfl rfl rfl rfl,
   by decide⟩

/-- C9: on a token-requiring endpoint that passes authorization, the bind
sources' `appUser` entry equals the subject resolved from the session row
of the token's `jti`, and a client-supplied `appUser` (in query string or
body) has no influence: two requests differing only in their client
`appUser` values produce identical bind sources. -/
theorem C9_appUser_overwritten (env : Server.TokenEnv) (uid method : String)
    (path q1 b1 q2 b2 : String → Option String)
    (hv : Server.validateToken env = .proceed (some uid))
    (hq : ∀ k, k ≠ ("appUser") → q1 k = q2 k)
    (hb : ∀ k, k ≠ ("appUser") → b1 k = b2 k) :
    Server.procBindSource method path (Server.injectAppUser method q1 b1 uid).1
        (Server.injectAppUser method q1 b1 uid).2 ("appUser") = some uid ∧
    Server.queryBindSource method path (Server.injectAppUser method q1 b1 uid).1
        (Server.injectAppUser method q1 b1 uid).2 ("appUser") = some uid ∧
    (∀ k, Server.procBindSource method path (Server.injectAppUser method q1 b1 uid).1
        (Server.injectAppUser method q1 b1 uid).2 k
      = Server.procBindSource method path (Server.injectAppUser method q2 b2 uid).1
        (Server.injectAppUser method q2 b2 uid).2 k) ∧
    (∀ k, Server.queryBindSource method path (Server.injectAppUser method q1 b1 uid).1
        (Server.injectAppUser method q1 b1 uid).2 k
      = Server.queryBindSource method path (Server.injectAppUser method q2 b2 uid).1
        (Server.injectAppUser method q2 b2 uid).2 k) ∧
    (env.requireToken = true ∧ some uid = Server.sessionUser env) := by
  have hsess : env.requireToken = true ∧ some uid = Server.sessionUser env := by
    by_cases hr : env.requireToken = true
    · refine ⟨hr, ?_⟩
      have := validateToken_proceed_spec env hr (some uid) hv
      exact this.2
    · unfold Server.validateToken at hv
      simp only [Bool.not_eq_true] at hr
      rw [hr] at hv
      exact absurd hv (by simp)
  by_cases hm : method = "GET"
  · refine ⟨?_, ?_, ?_, ?_, hsess⟩ <;>
      simp [Server.procBindSource, Server.queryBindSource, Server.injectAppUser,
        Server.mergeMaps, Server.setKey, hm]
    · intro k
      by_cases hk : k = ("appUser")
      · simp [hk]
      · simp [hk, hq k hk]
    · intro k
      by_cases hk : k = ("appUser")
      · simp [hk]
      · simp [hk, hq k hk]
  · refine ⟨?_, ?_, ?_, ?_, hsess⟩ <;>
      simp [Server.procBindSource, Server.queryBindSource, Server.injectAppUser,
        Server.mergeMaps, Server.setKey, hm]
    · intro k
      by_cases hk : k = ("appUser")
      · simp [hk]
      · simp [hk, hq k hk, hb k hk]
    · intro k
      by_cases hk : k = ("appUser")
      · simp [hk]
      · simp [hk, hb k hk]

/-- C9 witness: a GET request whose query string smuggles
`appUser = "evil"` against one that does not; after injection of the
session user `u1`, both bind sources agree everywhere and report
`appUser = u1`. -/
theorem C9_appUser_overwritten_witness :
    Server.procBindSource ("GET") (fun _ => none)
        (Server.injectAppUser ("GET")
          (fun k => if k = ("appUser") then some ("evil") else none) (fun _ => none) ("u1")).1
        (Server.injectAppUser ("GET")
          (fun k => if k = ("appUser") then some ("evil") else none) (fun _ => none) ("u1")).2
        ("appUser") = some ("u1") ∧
    Server.procBindSource ("GET") (fun _ => none)
        (Server.injectAppUser ("GET")
          (fun k => if k = ("appUser") then some ("evil") else none) (fun _ => none) ("u1")).1
        (Server.injectAppUser ("GET")
          (fun k => if k = ("appUser") then some ("evil") else none) (fun _ => none) ("u1")).2
        ("other")
      = Server.procBindSource ("GET") (fun _ => none)
        (Server.injectAppUser ("GET") (fun _ => none) (fun _ => none) ("u1")).1
        (Server.injectAppUser ("GET") (fun _ => none) (fun _ => none) ("u1")).2
        ("other") := by
  have h := C9_appUser_overwritten
    ⟨true, some ("Bearer t"), some (some ("k1")), fun _ => some ("KEY"),
      .ok (some ("j1")), fun _ => some ("u1")⟩
    ("u1") ("GET") (fun _ => none)
    (fun k => if k = ("appUser") then some ("evil") else none) (fun _ => none)
    (fun _ => none) (fun _ => none)
    (by rfl)
    (by intro k hk; simp [hk])
    (fun _ _ => rfl)
  exact ⟨h.1, h.2.2.1 ("other")⟩

/-- C10: a successful procedure-only request (non-blank `sqlProcedure`,
absent or blank `sqlQuery`) responds exactly `{success: true, data: []}`:
the query branch never runs, `queryResult` stays null, and the procedure's
output binds are not part of the envelope (the response is the same for
every output-bind list). -/
theorem C10_procedure_only_response (p : String) (q? : Option String)
    (hp : Server.hasText (some p) = true) (hq : Server.hasText q? = false)
    (procOut : List (String × Server.JsValue))
    (queryRows : List (List (String × String))) :
    Server.runEndpoint (some p) q? procOut queryRows
      = { success := true, data := [] } := by
  unfold Server.runEndpoint
  simp [hp, hq]

/-- C10 witness: a concrete procedure-only endpoint with a non-empty
output-bind list and pending rows still answers `{success: true, data: []}`. -/
theorem C10_procedure_only_response_witness :
    Server.hasText (some ("CALL p(:v, @x)")) = true ∧
    Server.hasText (none : Option String) = false ∧
    Server.runEndpoint (some ("CALL p(:v, @x)")) none [(("x"), .num 7)]
        [[(("a"), ("b"))]]
      = { success := true, data := [] } :=
  ⟨rfl, rfl,
    C10_procedure_only_response ("CALL p(:v, @x)") none rfl rfl
      [(("x"), .num 7)] [[(("a"), ("b"))]]⟩

namespace Server

theorem all_reverse' (p : Char → Bool) (l : List Char) : l.reverse.all p = l.all p := by
  induction l with
  | nil => rfl
  | cons a t ih => simp [List.all_append, ih, Bool.and_comm]

theorem detectTrailing_append (base x : List Char) (hx0 : x ≠ [])
    (hx1 : x.all isWordChar = true) :
    detectTrailing (base ++ '/' :: '{' :: (x ++ ['}'])) = some (base, x) := by
  have hrev : (base ++ '/' :: '{' :: (x ++ ['}'])).reverse
      = '}' :: (x.reverse ++ '{' :: '/' :: base.reverse) := by
    simp
  have hb : boundaryOk ('{' :: '/' :: base.reverse) = true := rfl
  have tw := takeWhile_word_append x.reverse ('{' :: '/' :: base.reverse)
      (by rw [all_reverse']; exact hx1) hb
  unfold detectTrailing
  rw [hrev]
  simp [tw.1, tw.2, hx0]

theorem replaceTrailingCaps_id (x : String) (ts : List UrlTok) (h : x ∉ capNames ts) :
    replaceTrailingCaps (some x) ts = ts := by
  induction ts with
  | nil => rfl
  | cons t rest ih =>
    cases t with
    | lit c =>
      have hcn : capNames (UrlTok.lit c :: rest) = capNames rest := by simp [capNames]
      rw [hcn] at h
      simp only [replaceTrailingCaps, List.foldr_cons] at ih ⊢
      simp [ih h]
    | cap n =>
      have hcn : capNames (UrlTok.cap n :: rest) = n :: capNames rest := by
        simp [capNames]
      rw [hcn] at h
      simp only [List.mem_cons, not_or] at h
      have h1 : ¬(n = x) := fun hh => h.1 hh.symm
      simp only [replaceTrailingCaps, List.foldr_cons] at ih ⊢
      simp [h1, ih h.2]

theorem baseMatch_caps {ts : List UrlTok} {s : List Char} {caps : List (String × List Char)}
    (h : BaseMatch ts s caps) :
    ∀ nv ∈ caps, nv.2 ≠ [] ∧ ∀ c ∈ nv.2, c ≠ '/' := by
  induction h with
  | nil => simp
  | lit c _ ih => exact ih
  | cap n seg hne hns _ ih =>
    intro nv hnv
    rcases List.mem_cons.mp hnv with hh | hh
    · subst hh
      exact ⟨hne, hns⟩
    · exact ih nv hh

theorem baseMatch_lit_append {ts : List UrlTok} {s : List Char}
    {caps : List (String × List Char)} (l : List Char) (h : BaseMatch ts s caps) :
    BaseMatch (l.map UrlTok.lit ++ ts) (l ++ s) caps := by
  induction l with
  | nil => simpa using h
  | cons c t ih => exact BaseMatch.lit c ih

end Server

/-- C6: for every URL template consisting of a base pattern followed by
exactly one optional trailing `{x}` segment (a name not reused by the
base's placeholders, all group names being pairwise distinct and valid
identifiers — not digit-leading — so the compiled regex is valid), the
compiled matcher detects the trailing segment; it accepts any path whose
prefix matches the base with `x` absent (also with a trailing slash),
and accepts the same path extended by `/seg` with `x` captured as `seg`;
and in every accepted match each `{name}` capture and the trailing
capture take exactly one non-empty slash-free path segment, the whole
path being consumed (anchored match, optional final slash). -/
theorem C6_optional_trailing_segment (baseStr x path seg : List Char)
    (caps : List (String × List Char))
    (hx0 : x ≠ []) (hx1 : x.all Server.isWordChar = true)
    (hxf : x.asString ∉ Server.capNames (Server.parseToks baseStr))
    (hnd : Server.nodupB (Server.capNames (Server.parseToks baseStr)) = true)
    (hbv : (Server.capNames (Server.parseToks baseStr)).all Server.validGroupName = true)
    (hxv : Server.validGroupName x.asString = true)
    (hbase : Server.BaseMatch (Server.parseToks baseStr) path caps)
    (hseg : seg ≠ []) (hsegs : ∀ c ∈ seg, c ≠ '/') :
    Server.convertUrlPatternToRegex (baseStr ++ '/' :: '{' :: (x ++ ['}']))
      = some ⟨Server.parseToks baseStr, some x.asString⟩ ∧
    Server.RouteMatch ⟨Server.parseToks baseStr, some x.asString⟩ path caps none ∧
    Server.RouteMatch ⟨Server.parseToks baseStr, some x.asString⟩ (path ++ ['/']) caps none ∧
    Server.RouteMatch ⟨Server.parseToks baseStr, some x.asString⟩ (path ++ '/' :: seg)
      caps (some seg) ∧
    (∀ q caps2 t,
      Server.RouteMatch ⟨Server.parseToks baseStr, some x.asString⟩ q caps2 t →
        (∀ nv ∈ caps2, nv.2 ≠ [] ∧ ∀ c ∈ nv.2, c ≠ '/') ∧
        (∀ s2, t = some s2 → s2 ≠ [] ∧ ∀ c ∈ s2, c ≠ '/')) := by
  refine ⟨?_, ?_, ?_, ?_, ?_⟩
  · unfold Server.convertUrlPatternToRegex
    rw [Server.detectTrailing_append baseStr x hx0 hx1]
    dsimp only
    rw [Server.replaceTrailingCaps_id x.asString (Server.parseToks baseStr) hxf]
    rw [hnd, hbv, hxv]
    rfl
  · exact ⟨path, [], [], by simp, hbase, Or.inl ⟨rfl, rfl⟩, Or.inl rfl⟩
  · exact ⟨path, [], ['/'], by simp, hbase, Or.inl ⟨rfl, rfl⟩, Or.inr rfl⟩
  · exact ⟨path, '/' :: seg, [], by simp, hbase,
      Or.inr ⟨seg, hseg, hsegs, rfl, rfl⟩, Or.inl rfl⟩
  · intro q caps2 t hm
    obtain ⟨p1, p2, p3, _, hb, htr, _⟩ := hm
    refine ⟨Server.baseMatch_caps hb, ?_⟩
    intro s2 hs2
    rcases htr with ⟨_, ht⟩ | ⟨seg2, hs0, hs1, _, ht⟩
    · rw [ht] at hs2
      exact absurd hs2 (by simp)
    · rw [ht] at hs2
      injection hs2 with hs3
      subst hs3
      exact ⟨hs0, hs1⟩

/-- C6 witness: template `/api/{cat}/items/{id}` (optional trailing
`{id}`): the path `/api/books/items` matches with `id` absent (also with
a trailing slash), and `/api/books/items/7` matches with `id = 7`; `cat`
captures the one segment `books`. -/
theorem C6_optional_trailing_segment_witness :
    Server.convertUrlPatternToRegex
        (("/api/{cat}/items").data ++ '/' :: '{' :: ((("id").data) ++ ['}']))
      = some ⟨Server.parseToks ("/api/{cat}/items").data, some (("id").data).asString⟩ ∧
    Server.RouteMatch ⟨Server.parseToks ("/api/{cat}/items").data, some (("id").data).asString⟩
      ("/api/books/items").data [(("cat"), ("books").data)] none ∧
    Server.RouteMatch ⟨Server.parseToks ("/api/{cat}/items").data, some (("id").data).asString⟩
      (("/api/books/items").data ++ ['/']) [(("cat"), ("books").data)] none ∧
    Server.RouteMatch ⟨Server.parseToks ("/api/{cat}/items").data, some (("id").data).asString⟩
      (("/api/books/items").data ++ '/' :: ("7").data) [(("cat"), ("books").data)]
      (some ("7").data) ∧
    (∀ q caps2 t,
      Server.RouteMatch ⟨Server.parseToks ("/api/{cat}/items").data, some (("id").data).asString⟩
          q caps2 t →
        (∀ nv ∈ caps2, nv.2 ≠ [] ∧ ∀ c ∈ nv.2, c ≠ '/') ∧
        (∀ s2, t = some s2 → s2 ≠ [] ∧ ∀ c ∈ s2, c ≠ '/')) := by
  have hbase : Server.BaseMatch (Server.parseToks ("/api/{cat}/items").data)
      ("/api/books/items").data [(("cat"), ("books").data)] := by
    have h1 : Server.BaseMatch ((("/items").data).map Server.UrlTok.lit)
        (("/items").data) [] := by
      have h0 := Server.baseMatch_lit_append (("/items").data) Server.BaseMatch.nil
      simpa using h0
    have h2 := Server.BaseMatch.cap ("cat") (("books").data)
      (by decide) (by decide) h1
    have h3 := Server.baseMatch_lit_append (("/api/").data) h2
    exact h3
  exact C6_optional_trailing_segment ("/api/{cat}/items").data ("id").data
    ("/api/books/items").data ("7").data [(("cat"), ("books").data)]
    (by decide) (by decide) (by decide) (by decide) (by decide) (by decide)
    hbase (by decide) (by decide)
